import Mathlib

/-!
Verification of the Conxian Nexus core against its source.

The development shallowly embeds the four core subsystems:
* `src/state/mod.rs`   — the Merkle state tracker (`NexusState`),
* `src/sync/mod.rs`    — the chain event processor (`NexusSync`),
* `src/safety/mod.rs`  — the drift / circuit-breaker monitor (`NexusSafety`),
* `src/executor/mod.rs`— the FSOC front-running sequencer (`NexusExecutor`).

Rust machine integers become `Nat` (heights, drifts, byte values) or `Int`
(timestamps, which are compared and shifted by fixed offsets).  The external
collaborators (Postgres tables, Redis keys) become explicit record fields
threaded through the functions that read and write them.  Mutex wrappers and
the `last_updated` timestamp field, which no claim observes, are elided.
SHA-256 (the `sha2` crate) is embedded concretely below, following FIPS 180-4
exactly as the crate implements it, over lists of byte values.
-/

/-! ## SHA-256 over byte lists (model of the `sha2` crate) -/

/-- Truncate to a 32-bit word. -/
def w32 (x : Nat) : Nat := x % 4294967296

/-- 32-bit right rotation. -/
def rotr (n x : Nat) : Nat := w32 ((x >>> n) ||| (x <<< (32 - n)))

def bsig0 (x : Nat) : Nat := rotr 2 x ^^^ rotr 13 x ^^^ rotr 22 x

def bsig1 (x : Nat) : Nat := rotr 6 x ^^^ rotr 11 x ^^^ rotr 25 x

def ssig0 (x : Nat) : Nat := rotr 7 x ^^^ rotr 18 x ^^^ (x >>> 3)

def ssig1 (x : Nat) : Nat := rotr 17 x ^^^ rotr 19 x ^^^ (x >>> 10)

def chf (x y z : Nat) : Nat := (x &&& y) ^^^ ((x ^^^ 4294967295) &&& z)

def majf (x y z : Nat) : Nat := (x &&& y) ^^^ (x &&& z) ^^^ (y &&& z)

/-- The 64 SHA-256 round constants, written in decimal. -/
def sha_k : List Nat :=
  [1116352408, 1899447441, 3049323471, 3921009573, 961987163,
   1508970993, 2453635748, 2870763221, 3624381080, 310598401,
   607225278, 1426881987, 1925078388, 2162078206, 2614888103,
   3248222580, 3835390401, 4022224774, 264347078, 604807628,
   770255983, 1249150122, 1555081692, 1996064986, 2554220882,
   2821834349, 2952996808, 3210313671, 3336571891, 3584528711,
   113926993, 338241895, 666307205, 773529912, 1294757372,
   1396182291, 1695183700, 1986661051, 2177026350, 2456956037,
   2730485921, 2820302411, 3259730800, 3345764771, 3516065817,
   3600352804, 4094571909, 275423344, 430227734, 506948616,
   659060556, 883997877, 958139571, 1322822218, 1537002063,
   1747873779, 1955562222, 2024104815, 2227730452, 2361852424,
   2428436474, 2756734187, 3204031479, 3329325298]

/-- The initial SHA-256 hash state, written in decimal. -/
def sha_h0 : List Nat :=
  [1779033703, 3144134277, 1013904242, 2773480762,
   1359893119, 2600822924, 528734635, 1541459225]

/-- Big-endian byte rendering of `n` on `k` bytes. -/
def toBytesBE : Nat → Nat → List Nat
  | 0, _ => []
  | k + 1, n => toBytesBE k (n / 256) ++ [n % 256]

/-- Group a byte list into big-endian 32-bit words. -/
def bytesToWords : List Nat → List Nat
  | b0 :: b1 :: b2 :: b3 :: rest => (((b0 * 256 + b1) * 256 + b2) * 256 + b3) :: bytesToWords rest
  | _ => []

/-- FIPS 180-4 padding: append `0x80`, zeros, then the 64-bit bit length. -/
def padMessage (msg : List Nat) : List Nat :=
  msg ++ [0x80] ++ List.replicate ((119 - msg.length % 64) % 64) 0 ++ toBytesBE 8 (msg.length * 8)

/-- Split a byte list into 64-byte blocks; the fuel (one unit per byte)
always exceeds the block count, so the loop runs to completion. -/
def chunks64Fuel : Nat → List Nat → List (List Nat)
  | 0, _ => []
  | fuel + 1, l => if l = [] then [] else l.take 64 :: chunks64Fuel fuel (l.drop 64)

/-- Split the padded message into 64-byte blocks. -/
def chunks64 (l : List Nat) : List (List Nat) := chunks64Fuel l.length l

/-- Extend the 16 message-schedule words to 64. -/
def extendLoop : Nat → List Nat → List Nat
  | 0, acc => acc
  | k + 1, acc =>
    let n := acc.length
    let wi := w32 (ssig1 (acc.getD (n - 2) 0) + acc.getD (n - 7) 0 +
                   ssig0 (acc.getD (n - 15) 0) + acc.getD (n - 16) 0)
    extendLoop k (acc ++ [wi])

def schedule (block16 : List Nat) : List Nat := extendLoop 48 block16

/-- One compression round on the eight working variables. -/
def shaRound (s : Nat × Nat × Nat × Nat × Nat × Nat × Nat × Nat) (kw : Nat × Nat) :
    Nat × Nat × Nat × Nat × Nat × Nat × Nat × Nat :=
  let (a, b, c, d, e, f, g, hh) := s
  let t1 := w32 (hh + bsig1 e + chf e f g + kw.1 + kw.2)
  let t2 := w32 (bsig0 a + majf a b c)
  (w32 (t1 + t2), a, b, c, w32 (d + t1), e, f, g)

/-- Compress one 64-byte block into the running hash state. -/
def compressBlock (h : List Nat) (block : List Nat) : List Nat :=
  let ws := schedule (bytesToWords block)
  let init : Nat × Nat × Nat × Nat × Nat × Nat × Nat × Nat :=
    (h.getD 0 0, h.getD 1 0, h.getD 2 0, h.getD 3 0, h.getD 4 0, h.getD 5 0, h.getD 6 0, h.getD 7 0)
  let r := (sha_k.zip ws).foldl shaRound init
  let (a, b, c, d, e, f, g, hh) := r
  [w32 (h.getD 0 0 + a), w32 (h.getD 1 0 + b), w32 (h.getD 2 0 + c), w32 (h.getD 3 0 + d),
   w32 (h.getD 4 0 + e), w32 (h.getD 5 0 + f), w32 (h.getD 6 0 + g), w32 (h.getD 7 0 + hh)]

/-- SHA-256 digest of a byte list, as a list of 32 byte values. -/
def sha256 (msg : List Nat) : List Nat :=
  ((chunks64 (padMessage msg)).foldl compressBlock sha_h0).flatMap (toBytesBE 4)

/-- The UTF-8 encoding of one character, as byte values. -/
def utf8EncodeCharNat (c : Char) : List Nat :=
  let n := c.toNat
  if n < 128 then [n]
  else if n < 2048 then [192 ||| (n >>> 6), 128 ||| (n &&& 63)]
  else if n < 65536 then
    [224 ||| (n >>> 12), 128 ||| ((n >>> 6) &&& 63), 128 ||| (n &&& 63)]
  else
    [240 ||| (n >>> 18), 128 ||| ((n >>> 12) &&& 63),
     128 ||| ((n >>> 6) &&& 63), 128 ||| (n &&& 63)]

/-- UTF-8 bytes of a string, as Rust's `str::as_bytes` produces them. -/
def utf8Bytes (s : String) : List Nat := s.data.flatMap utf8EncodeCharNat

/-! ## Hex encoding and decoding (model of the `hex` crate) -/

def hexDigits : List Char :=
  ['0', '1', '2', '3', '4', '5', '6', '7', '8', '9'] ++ ['a', 'b', 'c', 'd', 'e', 'f']

def hexChar (n : Nat) : Char := hexDigits.getD n '0'

/-- Lowercase hex rendering of a byte list, as a character list. -/
def hexEncodeChars (bytes : List Nat) : List Char :=
  bytes.flatMap (fun b => [hexChar (b / 16), hexChar (b % 16)])

/-- `hex::encode`: lowercase hex rendering of a byte list. -/
def hexEncode (bytes : List Nat) : String := String.mk (hexEncodeChars bytes)

/-- A hash digest rendered as `0x` followed by lowercase hex. -/
def hex0x (bytes : List Nat) : String := "0x" ++ hexEncode bytes

/-- Value of one hex digit; `hex::decode` accepts both cases. -/
def hexVal (c : Char) : Option Nat :=
  if '0' ≤ c ∧ c ≤ '9' then some (c.toNat - '0'.toNat)
  else if 'a' ≤ c ∧ c ≤ 'f' then some (c.toNat - 'a'.toNat + 10)
  else if 'A' ≤ c ∧ c ≤ 'F' then some (c.toNat - 'A'.toNat + 10)
  else none

/-- `hex::decode` on a character list: fails on odd length or a non-hex digit. -/
def hexDecodeList : List Char → Option (List Nat)
  | [] => some []
  | [_] => none
  | c1 :: c2 :: rest =>
    match hexVal c1, hexVal c2, hexDecodeList rest with
    | some hi, some lo, some bs => some ((hi * 16 + lo) :: bs)
    | _, _, _ => none

/-- `str::trim_start_matches("0x")`: strip every leading occurrence of `0x`. -/
def strip0xList (l : List Char) : List Char :=
  match l with
  | c1 :: c2 :: rest => if c1 = '0' ∧ c2 = 'x' then strip0xList rest else l
  | _ => l

/-! ## Merkle state tracker (`src/state/mod.rs`) -/

/-- `MerkleProof` from `src/state/mod.rs`: each path entry is
`(sibling hash, is_left)` where `is_left` records that the current node sits
in the left position. -/
structure MerkleProof where
  leaf : String
  path : List (String × Bool)
  root : String
deriving DecidableEq

/-- `NexusState` from `src/state/mod.rs`; the `Mutex` wrappers and the
`last_updated` timestamp (observed by no claim) are elided. -/
structure NexusState where
  leaves : List String
  state_root : String
deriving DecidableEq

namespace NexusState

/-- The all-zero root used over an empty leaf set. -/
def zero_root : String :=
  "0x0000000000000000000000000000000000000000000000000000000000000000"

/-- Leaf hash: SHA-256 of the leaf's UTF-8 bytes. -/
def leaf_hash (l : String) : List Nat := sha256 (utf8Bytes l)

/-- One level-folding pass of `calculate_root`'s while loop: `chunks(2)`,
hashing `left ‖ right`, duplicating an odd trailing node. -/
def combineLevel : List (List Nat) → List (List Nat)
  | a :: b :: rest => sha256 (a ++ b) :: combineLevel rest
  | [a] => [sha256 (a ++ a)]
  | [] => []

/-- The `while current_level.len() > 1` loop of `calculate_root`, with fuel;
each pass at least halves the level, so fuel `= initial length` suffices. -/
def foldLevelsFuel : Nat → List (List Nat) → List (List Nat)
  | 0, level => level
  | fuel + 1, level =>
    if level.length ≤ 1 then level else foldLevelsFuel fuel (combineLevel level)

/-- `NexusState::calculate_root`. -/
def calculate_root (leaves : List String) : String :=
  if leaves.isEmpty then zero_root
  else hex0x ((foldLevelsFuel leaves.length (leaves.map leaf_hash)).getD 0 [])

/-- `NexusState::new`. -/
def new : NexusState := { leaves := [], state_root := zero_root }

/-- `NexusState::get_state_root`. -/
def get_state_root (st : NexusState) : String := st.state_root

/-- `NexusState::update_state_batch`: append the batch to the leaf log and
recompute the root over the whole log. -/
def update_state_batch (st : NexusState) (data : List String) : NexusState :=
  let leaves := st.leaves ++ data
  { leaves := leaves, state_root := calculate_root leaves }

/-- `NexusState::update_state` (the `_tx_count` argument is unused). -/
def update_state (st : NexusState) (data : String) (_tx_count : Nat) : NexusState :=
  update_state_batch st [data]

/-- `NexusState::set_initial_leaves`: replace the leaf log wholesale. -/
def set_initial_leaves (_st : NexusState) (new_leaves : List String) : NexusState :=
  { leaves := new_leaves, state_root := calculate_root new_leaves }

/-- `Iterator::position`: index of the first element satisfying `p`. -/
def position (p : String → Bool) : List String → Option Nat
  | [] => none
  | x :: xs => if p x then some 0 else (position p xs).map (fun i => i + 1)

/-- The sibling index chosen by `generate_merkle_proof` at one level. -/
def siblingIdx (len idx : Nat) : Nat :=
  if idx % 2 = 0 then (if idx + 1 < len then idx + 1 else idx) else idx - 1

/-- The path-building `while` loop of `generate_merkle_proof`, with the same
fuel convention as `foldLevelsFuel`: at each level record the sibling hash
(`0x`-hex) and whether the current index is the left child, then fold the
level and halve the index. -/
def buildPathFuel : Nat → List (List Nat) → Nat → List (String × Bool)
  | 0, _, _ => []
  | fuel + 1, level, idx =>
    if level.length ≤ 1 then []
    else
      (hex0x (level.getD (siblingIdx level.length idx) []), idx % 2 == 0) ::
        buildPathFuel fuel (combineLevel level) (idx / 2)

/-- `NexusState::generate_merkle_proof`: locate the first leaf equal to `key`,
walk the tree bottom-up, and close with the stored root. -/
def generate_merkle_proof (st : NexusState) (key : String) : Option MerkleProof :=
  match position (fun l => l == key) st.leaves with
  | none => none
  | some index =>
    some { leaf := key,
           path := buildPathFuel st.leaves.length (st.leaves.map leaf_hash) index,
           root := st.get_state_root }

end NexusState

/-- The fold of `verify_merkle_proof`: `none` models the early `return false`
taken when a sibling hash fails hex decoding. -/
def verifyFold : List Nat → List (String × Bool) → Option (List Nat)
  | cur, [] => some cur
  | cur, (s, is_left) :: rest =>
    match hexDecodeList (strip0xList s.data) with
    | none => none
    | some sib =>
      verifyFold (if is_left then sha256 (cur ++ sib) else sha256 (sib ++ cur)) rest

/-- `verify_merkle_proof` (free function in `src/state/mod.rs`). -/
def verify_merkle_proof (proof : MerkleProof) : Bool :=
  match verifyFold (NexusState.leaf_hash proof.leaf) proof.path with
  | none => false
  | some h => (hex0x h) == proof.root

/-- Reachable tracker states: those produced from `new` by the mutating
operations of `NexusState`. -/
inductive NexusState.Reachable : NexusState → Prop
  | new : NexusState.Reachable NexusState.new
  | update (s : NexusState) (d : String) (n : Nat) :
      NexusState.Reachable s → NexusState.Reachable (s.update_state d n)
  | batch (s : NexusState) (data : List String) :
      NexusState.Reachable s → NexusState.Reachable (s.update_state_batch data)
  | init (s : NexusState) (ls : List String) :
      NexusState.Reachable s → NexusState.Reachable (s.set_initial_leaves ls)

/-! ## Helper lemmas: bytes, hex, and level folding -/

theorem toBytesBE_lt : ∀ (k n : Nat) (b : Nat), b ∈ toBytesBE k n → b < 256 := by
  intro k
  induction k with
  | zero => intro n b hb; simp [toBytesBE] at hb
  | succ m ih =>
    intro n b hb
    simp only [toBytesBE, List.mem_append, List.mem_singleton] at hb
    rcases hb with hb | hb
    · exact ih _ _ hb
    · subst hb; exact Nat.mod_lt _ (by decide)

theorem sha256_bytes_lt (msg : List Nat) (b : Nat) (hb : b ∈ sha256 msg) : b < 256 := by
  unfold sha256 at hb
  rcases List.mem_flatMap.mp hb with ⟨w, _, hw⟩
  exact toBytesBE_lt 4 w b hw

theorem getD_mem_of_lt {α : Type} (l : List α) (n : Nat) (d : α) (h : n < l.length) :
    l.getD n d ∈ l := by
  rw [List.getD_eq_getElem l d h]
  exact List.getElem_mem h

theorem hexChar_ne_x (n : Nat) : hexChar n ≠ 'x' := by
  unfold hexChar
  rcases Nat.lt_or_ge n 16 with h | h
  · interval_cases n <;> decide
  · rw [List.getD_eq_default]
    · decide
    · simpa [hexDigits] using h

theorem hexVal_hexChar (n : Nat) (h : n < 16) : hexVal (hexChar n) = some n := by
  interval_cases n <;> decide

theorem strip0x_hexEncode (bytes : List Nat) :
    strip0xList (hexEncodeChars bytes) = hexEncodeChars bytes := by
  cases bytes with
  | nil => rfl
  | cons b bs =>
    show strip0xList (hexChar (b / 16) :: hexChar (b % 16) :: hexEncodeChars bs)
        = hexChar (b / 16) :: hexChar (b % 16) :: hexEncodeChars bs
    rw [strip0xList]
    exact if_neg (by rintro ⟨-, h2⟩; exact hexChar_ne_x (b % 16) h2)

theorem hexDecode_hexEncode (bytes : List Nat) (h : ∀ b ∈ bytes, b < 256) :
    hexDecodeList (hexEncodeChars bytes) = some bytes := by
  induction bytes with
  | nil => rfl
  | cons b bs ih =>
    have hb : b < 256 := h b (List.mem_cons_self b bs)
    have hbs : ∀ x ∈ bs, x < 256 := fun x hx => h x (List.mem_cons_of_mem b hx)
    show hexDecodeList (hexChar (b / 16) :: hexChar (b % 16) :: hexEncodeChars bs) = some (b :: bs)
    rw [hexDecodeList]
    rw [hexVal_hexChar (b / 16) (by omega), hexVal_hexChar (b % 16) (by omega), ih hbs]
    show some ((b / 16 * 16 + b % 16) :: bs) = some (b :: bs)
    have hsum : b / 16 * 16 + b % 16 = b := by omega
    rw [hsum]

theorem hex0x_data (bytes : List Nat) :
    (hex0x bytes).data = '0' :: 'x' :: hexEncodeChars bytes := rfl

namespace NexusState

theorem combineLevel_length (l : List (List Nat)) :
    (combineLevel l).length = (l.length + 1) / 2 := by
  induction l using combineLevel.induct with
  | case1 a b rest ih => simp only [combineLevel, List.length_cons, ih]; omega
  | case2 a => simp [combineLevel]
  | case3 => simp [combineLevel]

theorem mem_combineLevel (l : List (List Nat)) (c : List Nat) (hc : c ∈ combineLevel l) :
    ∃ m, c = sha256 m := by
  induction l using combineLevel.induct with
  | case1 a b rest ih =>
    rcases List.mem_cons.mp hc with h | h
    · exact ⟨a ++ b, h⟩
    · exact ih h
  | case2 a =>
    rcases List.mem_singleton.mp hc with rfl
    exact ⟨a ++ a, rfl⟩
  | case3 => simp [combineLevel] at hc

theorem combineLevel_getD (l : List (List Nat)) (j : Nat) (hj : 2 * j < l.length) :
    (combineLevel l).getD j [] =
      if 2 * j + 1 < l.length then sha256 (l.getD (2 * j) [] ++ l.getD (2 * j + 1) [])
      else sha256 (l.getD (2 * j) [] ++ l.getD (2 * j) []) := by
  induction l using combineLevel.induct generalizing j with
  | case1 a b rest ih =>
    have hlen : (a :: b :: rest).length = rest.length + 2 := by simp
    cases j with
    | zero =>
      rw [if_pos (by rw [hlen]; omega)]
      rfl
    | succ k =>
      rw [hlen] at hj
      have hk : 2 * k < rest.length := by omega
      have step : (combineLevel (a :: b :: rest)).getD (k + 1) [] =
          (combineLevel rest).getD k [] := rfl
      rw [step, ih k hk]
      have e1 : (a :: b :: rest).getD (2 * (k + 1)) [] = rest.getD (2 * k) [] := by
        have h2 : 2 * (k + 1) = 2 * k + 1 + 1 := by omega
        rw [h2]; rfl
      have e2 : (a :: b :: rest).getD (2 * (k + 1) + 1) [] = rest.getD (2 * k + 1) [] := by
        have h2 : 2 * (k + 1) + 1 = 2 * k + 1 + 1 + 1 := by omega
        rw [h2]; rfl
      rw [e1, e2]
      by_cases hlt : 2 * k + 1 < rest.length
      · rw [if_pos hlt, if_pos (by rw [hlen]; omega)]
      · rw [if_neg hlt, if_neg (by rw [hlen]; omega)]
  | case2 a =>
    have hlen : ([a] : List (List Nat)).length = 1 := by simp
    rw [hlen] at hj
    have hj0 : j = 0 := by omega
    subst hj0
    rw [if_neg (by rw [hlen]; omega)]
    rfl
  | case3 => simp at hj

end NexusState

theorem verifyFold_cons (cur sib : List Nat) (is_left : Bool) (rest : List (String × Bool))
    (hb : ∀ b ∈ sib, b < 256) :
    verifyFold cur ((hex0x sib, is_left) :: rest)
      = verifyFold (if is_left then sha256 (cur ++ sib) else sha256 (sib ++ cur)) rest := by
  have hdec : hexDecodeList (strip0xList (hex0x sib).data) = some sib := by
    rw [hex0x_data]
    rw [strip0xList, if_pos ⟨rfl, rfl⟩, strip0x_hexEncode]
    exact hexDecode_hexEncode sib hb
  rw [verifyFold, hdec]

namespace NexusState

theorem verify_path_fold : ∀ (fuel : Nat) (level : List (List Nat)) (idx : Nat),
    level.length ≤ fuel + 1 → idx < level.length →
    (∀ d ∈ level, ∃ m, d = sha256 m) →
    verifyFold (level.getD idx []) (buildPathFuel fuel level idx)
      = some ((foldLevelsFuel fuel level).getD 0 []) := by
  intro fuel
  induction fuel with
  | zero =>
    intro level idx hlen hidx hsha
    have h0 : idx = 0 := by omega
    subst h0
    rfl
  | succ fuel ih =>
    intro level idx hlen hidx hsha
    by_cases hl : level.length ≤ 1
    · have h0 : idx = 0 := by omega
      subst h0
      rw [buildPathFuel, if_pos hl, foldLevelsFuel, if_pos hl]
      rfl
    · have hl2 : 2 ≤ level.length := by omega
      rw [buildPathFuel, if_neg hl, foldLevelsFuel, if_neg hl]
      have hsiblt : siblingIdx level.length idx < level.length := by
        unfold siblingIdx
        split
        · split
          · assumption
          · exact hidx
        · omega
      have hsha_sib : ∀ b ∈ level.getD (siblingIdx level.length idx) [], b < 256 := by
        rcases hsha _ (getD_mem_of_lt level (siblingIdx level.length idx) [] hsiblt) with ⟨m, hm⟩
        rw [hm]
        exact fun b hb => sha256_bytes_lt m b hb
      rw [verifyFold_cons _ _ _ _ hsha_sib]
      have hcur : (if (idx % 2 == 0 : Bool)
                     then sha256 (level.getD idx [] ++ level.getD (siblingIdx level.length idx) [])
                     else sha256 (level.getD (siblingIdx level.length idx) [] ++ level.getD idx []))
          = (combineLevel level).getD (idx / 2) [] := by
        have hgd := combineLevel_getD level (idx / 2) (by omega)
        rcases Nat.mod_two_eq_zero_or_one idx with hmod | hmod
        · have hbeq : (idx % 2 == 0) = true := by rw [hmod]; rfl
          rw [hbeq, if_pos rfl, hgd]
          unfold siblingIdx
          rw [if_pos hmod]
          by_cases hnext : idx + 1 < level.length
          · rw [if_pos hnext, if_pos (by omega)]
            have e1 : 2 * (idx / 2) = idx := by omega
            rw [e1]
          · rw [if_neg hnext, if_neg (by omega)]
            have e1 : 2 * (idx / 2) = idx := by omega
            rw [e1]
        · have hbeq : (idx % 2 == 0) = false := by rw [hmod]; rfl
          rw [hbeq, if_neg (by simp), hgd]
          unfold siblingIdx
          rw [if_neg (by omega), if_pos (by omega)]
          have e1 : 2 * (idx / 2) = idx - 1 := by omega
          rw [e1]
          have e3 : idx - 1 + 1 = idx := by omega
          rw [e3]
      rw [hcur]
      exact ih (combineLevel level) (idx / 2)
        (by rw [combineLevel_length]; omega)
        (by rw [combineLevel_length]; omega)
        (fun d hd => mem_combineLevel _ d hd)

end NexusState

namespace NexusState

theorem position_some (p : String → Bool) :
    ∀ (l : List String) (i : Nat), position p l = some i →
      i < l.length ∧ p (l.getD i "") = true := by
  intro l
  induction l with
  | nil => intro i h; simp [position] at h
  | cons x xs ih =>
    intro i h
    rw [position] at h
    by_cases hx : p x = true
    · rw [if_pos hx] at h
      cases h
      exact ⟨by simp, hx⟩
    · rw [if_neg hx] at h
      rcases Option.map_eq_some'.mp h with ⟨j, hj, rfl⟩
      rcases ih j hj with ⟨hlt, hpj⟩
      exact ⟨by simpa using Nat.succ_lt_succ hlt, hpj⟩

theorem position_none (p : String → Bool) :
    ∀ (l : List String), position p l = none → ∀ x ∈ l, p x = false := by
  intro l
  induction l with
  | nil => intro _ x hx; simp at hx
  | cons y xs ih =>
    intro h x hx
    rw [position] at h
    by_cases hy : p y = true
    · rw [if_pos hy] at h; cases h
    · rw [if_neg hy] at h
      rcases List.mem_cons.mp hx with rfl | hx2
      · exact Bool.eq_false_iff.mpr hy
      · exact ih (by simpa using h) x hx2

theorem reachable_root {st : NexusState} (h : st.Reachable) :
    st.state_root = calculate_root st.leaves := by
  induction h with
  | new => rfl
  | update s d n hs ih => rfl
  | batch s data hs ih => rfl
  | init s ls hs ih => rfl

end NexusState

theorem verify_eq_of_fold {leaf : String} {path : List (String × Bool)} {root : String}
    {d : List Nat} (h : verifyFold (NexusState.leaf_hash leaf) path = some d) :
    verify_merkle_proof ⟨leaf, path, root⟩ = ((hex0x d) == root) := by
  show (match verifyFold (NexusState.leaf_hash leaf) path with
        | none => false
        | some hh => (hex0x hh) == root) = ((hex0x d) == root)
  rw [h]

namespace NexusState

/-- C1: on every reachable tracker state, a value present among the leaves
yields a generated proof that `verify_merkle_proof` accepts, and a value equal
to no leaf makes `generate_merkle_proof` return `none`. -/
theorem c1_generate_verify (st : NexusState) (hst : st.Reachable) (key : String) :
    (key ∈ st.leaves →
      ∃ p, st.generate_merkle_proof key = some p ∧ verify_merkle_proof p = true) ∧
    (key ∉ st.leaves → st.generate_merkle_proof key = none) := by
  constructor
  · intro hmem
    cases hpos : position (fun l => l == key) st.leaves with
    | none =>
      exfalso
      have hfalse := position_none _ _ hpos key hmem
      simp at hfalse
    | some index =>
      rcases position_some _ _ _ hpos with ⟨hlt, hkey⟩
      have hkeyeq : st.leaves.getD index "" = key := by simpa using hkey
      refine ⟨{ leaf := key,
                path := buildPathFuel st.leaves.length (st.leaves.map leaf_hash) index,
                root := st.get_state_root }, ?_, ?_⟩
      · rw [generate_merkle_proof, hpos]
      · have hmap_len : (st.leaves.map leaf_hash).length = st.leaves.length := by simp
        have hfold := verify_path_fold st.leaves.length (st.leaves.map leaf_hash) index
          (by rw [hmap_len]; omega) (by rw [hmap_len]; exact hlt)
          (by intro dd hdd
              rcases List.mem_map.mp hdd with ⟨l, -, rfl⟩
              exact ⟨utf8Bytes l, rfl⟩)
        have hstart : (st.leaves.map leaf_hash).getD index [] = leaf_hash key := by
          rw [List.getD_eq_getElem _ _ (by rw [hmap_len]; exact hlt), List.getElem_map,
              ← List.getD_eq_getElem st.leaves "" hlt, hkeyeq]
        rw [hstart] at hfold
        rw [verify_eq_of_fold hfold, get_state_root, reachable_root hst]
        have hne : st.leaves ≠ [] := by
          intro hnil
          rw [hnil] at hmem
          simp at hmem
        rw [calculate_root, if_neg (by simpa [List.isEmpty_iff] using hne)]
        exact beq_self_eq_true _
  · intro hmem
    cases hpos : position (fun l => l == key) st.leaves with
    | none => rw [generate_merkle_proof, hpos]
    | some i =>
      exfalso
      rcases position_some _ _ _ hpos with ⟨hlt, hkey⟩
      have heq : st.leaves.getD i "" = key := by simpa using hkey
      exact hmem (heq ▸ getD_mem_of_lt st.leaves i "" hlt)

/-- C1 witness: the tracker holding leaves `a`, `b`, `c` produces a proof for
`b` that verifies. -/
theorem c1_witness :
    ((NexusState.new.set_initial_leaves ["a", "b", "c"]).Reachable ∧
      "b" ∈ (NexusState.new.set_initial_leaves ["a", "b", "c"]).leaves) ∧
    ∃ p, (NexusState.new.set_initial_leaves ["a", "b", "c"]).generate_merkle_proof "b" = some p ∧
      verify_merkle_proof p = true :=
  ⟨⟨Reachable.init _ _ Reachable.new, by decide⟩,
   (c1_generate_verify _ (Reachable.init _ _ Reachable.new) "b").1 (by decide)⟩

theorem foldl_batches_reachable (bs : List (List String)) :
    ∀ st : NexusState, st.Reachable → (bs.foldl update_state_batch st).Reachable := by
  induction bs with
  | nil => intro st h; exact h
  | cons b bs ih => intro st h; exact ih _ (Reachable.batch st b h)

theorem foldl_batches_leaves (bs : List (List String)) :
    ∀ st : NexusState, (bs.foldl update_state_batch st).leaves = st.leaves ++ bs.flatten := by
  induction bs with
  | nil => intro st; simp
  | cons b bs ih =>
    intro st
    show (bs.foldl update_state_batch (st.update_state_batch b)).leaves = _
    rw [ih]
    show (st.leaves ++ b) ++ bs.flatten = st.leaves ++ (b :: bs).flatten
    rw [List.flatten_cons, List.append_assoc]

/-- C2: starting from the empty tracker, the root after appending any
partition of a leaf sequence into ordered batches depends only on the
concatenated sequence: two partitions with the same concatenation give the
same root. -/
theorem c2_root_batch_invariance (bs1 bs2 : List (List String))
    (h : bs1.flatten = bs2.flatten) :
    (bs1.foldl update_state_batch NexusState.new).get_state_root =
    (bs2.foldl update_state_batch NexusState.new).get_state_root := by
  rw [get_state_root, get_state_root,
      reachable_root (foldl_batches_reachable bs1 _ Reachable.new),
      reachable_root (foldl_batches_reachable bs2 _ Reachable.new),
      foldl_batches_leaves, foldl_batches_leaves]
  show calculate_root ([] ++ bs1.flatten) = calculate_root ([] ++ bs2.flatten)
  rw [List.nil_append, List.nil_append, h]

/-- C2 witness: one batch `[a, b]` and the split `[a]`, `[b]` agree. -/
theorem c2_witness :
    ([["a", "b"]] : List (List String)).flatten = [["a"], ["b"]].flatten ∧
    (([["a", "b"]] : List (List String)).foldl update_state_batch NexusState.new).get_state_root =
    (([["a"], ["b"]] : List (List String)).foldl update_state_batch NexusState.new).get_state_root :=
  ⟨by decide, c2_root_batch_invariance _ _ (by decide)⟩

/-- C9: every reachable tracker state stores exactly the root of its current
leaf log (the all-zero root when the log is empty), and every generated
proof reports that root. -/
theorem c9_root_invariant (st : NexusState) (hst : st.Reachable) :
    st.state_root = calculate_root st.leaves ∧
    st.get_state_root = calculate_root st.leaves ∧
    (st.leaves = [] → st.get_state_root = zero_root) ∧
    (∀ key p, st.generate_merkle_proof key = some p → p.root = calculate_root st.leaves) := by
  have hroot := reachable_root hst
  refine ⟨hroot, hroot, ?_, ?_⟩
  · intro hnil
    rw [get_state_root, hroot, hnil]
    rfl
  · intro key p hp
    rw [generate_merkle_proof] at hp
    cases hpos : position (fun l => l == key) st.leaves with
    | none =>
      rw [hpos] at hp
      exact Option.noConfusion hp
    | some i =>
      rw [hpos] at hp
      have hp2 := Option.some.inj hp
      rw [← hp2]
      show st.get_state_root = calculate_root st.leaves
      rw [get_state_root, hroot]

/-- C9 witness: the state reached by one batch append satisfies the root
invariant. -/
theorem c9_witness :
    (NexusState.new.update_state_batch ["a"]).Reachable ∧
    (NexusState.new.update_state_batch ["a"]).state_root
      = calculate_root (NexusState.new.update_state_batch ["a"]).leaves :=
  ⟨Reachable.batch _ _ Reachable.new,
   (c9_root_invariant _ (Reachable.batch _ _ Reachable.new)).1⟩

end NexusState

/-- C7: proof verification is total — it returns one of the two booleans on
every input — and any proof containing a sibling-hash string that fails hex
decoding (after `0x`-stripping) verifies to `false` rather than erroring. -/
theorem c7_verify_total (proof : MerkleProof) :
    (verify_merkle_proof proof = true ∨ verify_merkle_proof proof = false) ∧
    (∀ s b, (s, b) ∈ proof.path → hexDecodeList (strip0xList s.data) = none →
      verify_merkle_proof proof = false) := by
  constructor
  · cases hv : verify_merkle_proof proof
    · right; rfl
    · left; rfl
  · intro s b hmem hbad
    have hnone : ∀ (cur : List Nat) (path : List (String × Bool)), (s, b) ∈ path →
        verifyFold cur path = none := by
      intro cur path
      induction path generalizing cur with
      | nil => intro hmem2; simp at hmem2
      | cons hd tl ih =>
        obtain ⟨s1, b1⟩ := hd
        intro hmem2
        rcases List.mem_cons.mp hmem2 with h1 | h1
        · rw [Prod.mk.injEq] at h1
          obtain ⟨hs, hb1⟩ := h1
          subst hs
          rw [verifyFold, hbad]
        · rw [verifyFold]
          cases hdec : hexDecodeList (strip0xList s1.data) with
          | none => rfl
          | some sib => exact ih _ h1
    show (match verifyFold (NexusState.leaf_hash proof.leaf) proof.path with
          | none => false
          | some hh => (hex0x hh) == proof.root) = false
    rw [hnone _ _ hmem]

/-- C7 witness: a proof whose sibling hash `zz` is not hex verifies to
`false`. -/
theorem c7_witness :
    ((("zz" : String), true) ∈ (MerkleProof.mk "a" [("zz", true)] "0x").path ∧
      hexDecodeList (strip0xList ("zz" : String).data) = none) ∧
    verify_merkle_proof (MerkleProof.mk "a" [("zz", true)] "0x") = false :=
  ⟨⟨by decide, by decide⟩,
   (c7_verify_total _).2 "zz" true (by decide) (by decide)⟩

/-! ## Chain event processor (`src/sync/mod.rs`)

The Postgres tables `stacks_blocks` and `stacks_transactions` become explicit
record lists (`ON CONFLICT DO NOTHING` becomes insert-if-absent keyed on the
primary key), and the Redis keys touched by the processor become an explicit
cache record.  Timestamps are `Int` milliseconds. -/

/-- One row of `stacks_blocks`: `kind` is `microblock` or `burn_block`,
`state` is `soft` or `hard`, exactly as the SQL strings. -/
structure BlockRecord where
  hash : String
  height : Nat
  kind : String
  state : String
  created_at : Int
deriving DecidableEq

/-- One row of `stacks_transactions`. -/
structure TransactionRecord where
  tx_id : String
  block_hash : String
  sender : String
  payload : Option String
  created_at : Int
deriving DecidableEq

/-- The persistence collaborator's two tables. -/
structure SyncDb where
  blocks : List BlockRecord
  txs : List TransactionRecord
deriving DecidableEq

/-- The Redis keys written by the processor: the root cache and the
dependent `cache:vaults:all` key (`none` once invalidated). -/
structure RedisCache where
  state_root : Option String
  vaults_cache : Option String
deriving DecidableEq

/-- The full state the event processor acts on. -/
structure SyncState where
  db : SyncDb
  state : NexusState
  redis : RedisCache
deriving DecidableEq

/-- `TransactionData` from `src/sync/mod.rs`. -/
structure TransactionData where
  tx_id : String
  sender : String
  payload : Option String
deriving DecidableEq

/-- `MicroblockData` from `src/sync/mod.rs`. -/
structure MicroblockData where
  hash : String
  height : Nat
  parent_hash : String
  txs : List TransactionData
  timestamp : Int
deriving DecidableEq

/-- `BurnBlockData` from `src/sync/mod.rs`. -/
structure BurnBlockData where
  hash : String
  height : Nat
  timestamp : Int
deriving DecidableEq

/-- `StacksEvent` from `src/sync/mod.rs`. -/
inductive StacksEvent where
  | Microblock : MicroblockData → StacksEvent
  | BurnBlock : BurnBlockData → StacksEvent

namespace NexusSync

/-- `INSERT INTO stacks_blocks ... ON CONFLICT (hash) DO NOTHING`. -/
def insert_block_if_absent (blocks : List BlockRecord) (r : BlockRecord) : List BlockRecord :=
  if blocks.any (fun b => b.hash == r.hash) then blocks else blocks ++ [r]

/-- `INSERT INTO stacks_transactions ... ON CONFLICT (tx_id) DO NOTHING`. -/
def insert_tx_if_absent (txs : List TransactionRecord) (t : TransactionRecord) :
    List TransactionRecord :=
  if txs.any (fun x => x.tx_id == t.tx_id) then txs else txs ++ [t]

/-- The transaction row built by `process_microblock` for one event entry. -/
def micro_tx_record (data : MicroblockData) (t : TransactionData) : TransactionRecord :=
  { tx_id := t.tx_id, block_hash := data.hash, sender := t.sender,
    payload := t.payload, created_at := data.timestamp }

/-- `NexusSync::process_microblock`: insert the block as `soft`, insert each
transaction, append the tx ids as a batch to the Merkle tracker, publish the
new root, and invalidate the dependent vault cache. -/
def process_microblock (st : SyncState) (data : MicroblockData) : SyncState :=
  let blocks := insert_block_if_absent st.db.blocks
    { hash := data.hash, height := data.height, kind := "microblock",
      state := "soft", created_at := data.timestamp }
  let txs := data.txs.foldl (fun acc t => insert_tx_if_absent acc (micro_tx_record data t)) st.db.txs
  let ns := st.state.update_state_batch (data.txs.map (fun t => t.tx_id))
  { db := { blocks := blocks, txs := txs },
    state := ns,
    redis := { state_root := some ns.get_state_root, vaults_cache := none } }

/-- The row update of
`UPDATE stacks_blocks SET state = 'hard' WHERE height <= $1 AND state = 'soft'`. -/
def promote (h : Nat) (b : BlockRecord) : BlockRecord :=
  if b.height ≤ h ∧ b.state = "soft" then { b with state := "hard" } else b

/-- `NexusSync::process_burn_block`: promote covered soft blocks to `hard`,
insert this block as `hard`, and republish the (unchanged) root. -/
def process_burn_block (st : SyncState) (data : BurnBlockData) : SyncState :=
  let blocks := insert_block_if_absent (st.db.blocks.map (promote data.height))
    { hash := data.hash, height := data.height, kind := "burn_block",
      state := "hard", created_at := data.timestamp }
  { db := { blocks := blocks, txs := st.db.txs },
    state := st.state,
    redis := { state_root := some st.state.get_state_root,
               vaults_cache := st.redis.vaults_cache } }

/-- `NexusSync::handle_event`. -/
def handle_event (st : SyncState) (e : StacksEvent) : SyncState :=
  match e with
  | StacksEvent.Microblock data => process_microblock st data
  | StacksEvent.BurnBlock data => process_burn_block st data

/-- A sequence of events applied in arrival order. -/
def apply_events (st : SyncState) (evs : List StacksEvent) : SyncState :=
  evs.foldl handle_event st

/-- Lookup of a stored block row by its primary key. -/
def lookup_block (db : SyncDb) (h : String) : Option BlockRecord :=
  db.blocks.find? (fun b => b.hash == h)

end NexusSync

namespace NexusSync

theorem mem_insert_block (l : List BlockRecord) (r x : BlockRecord) (hx : x ∈ l) :
    x ∈ insert_block_if_absent l r := by
  unfold insert_block_if_absent
  split
  · exact hx
  · exact List.mem_append_left _ hx

theorem promote_hash (n : Nat) (b : BlockRecord) : (promote n b).hash = b.hash := by
  unfold promote; split <;> rfl

theorem promote_hard (n : Nat) (b : BlockRecord) (hb : b.state = "hard") : promote n b = b := by
  unfold promote
  rw [if_neg]
  rintro ⟨-, hs⟩
  rw [hb] at hs
  exact absurd hs (by decide)

theorem promote_idem (n : Nat) (b : BlockRecord) : promote n (promote n b) = promote n b := by
  by_cases hc : b.height ≤ n ∧ b.state = "soft"
  · have h1 : promote n b = { b with state := "hard" } := by unfold promote; rw [if_pos hc]
    rw [h1]
    exact promote_hard n { b with state := "hard" } rfl
  · have h1 : promote n b = b := by unfold promote; rw [if_neg hc]
    rw [h1]
    exact h1

theorem find?_append_of_some {p : BlockRecord → Bool} {l : List BlockRecord} {r : BlockRecord}
    (h : l.find? p = some r) (l2 : List BlockRecord) : (l ++ l2).find? p = some r := by
  induction l with
  | nil => simp [List.find?] at h
  | cons a t ih =>
    by_cases hpa : p a = true
    · rw [List.find?_cons_of_pos _ hpa] at h
      rw [List.cons_append, List.find?_cons_of_pos _ hpa]
      exact h
    · rw [List.find?_cons_of_neg _ (by simpa using hpa)] at h
      rw [List.cons_append, List.find?_cons_of_neg _ (by simpa using hpa)]
      exact ih h

theorem find?_block_cons_pos (p : BlockRecord → Bool) (a : BlockRecord) (l : List BlockRecord)
    (h : p a = true) : (a :: l).find? p = some a := by
  rw [List.find?, h]

theorem find?_block_cons_neg (p : BlockRecord → Bool) (a : BlockRecord) (l : List BlockRecord)
    (h : p a = false) : (a :: l).find? p = l.find? p := by
  rw [List.find?, h]

theorem find?_hash_map_promote (n : Nat) (hs : String) (l : List BlockRecord) (r : BlockRecord)
    (h : l.find? (fun b => b.hash == hs) = some r) :
    (l.map (promote n)).find? (fun b => b.hash == hs) = some (promote n r) := by
  induction l with
  | nil => simp [List.find?] at h
  | cons a t ih =>
    by_cases hpa : (a.hash == hs) = true
    · rw [find?_block_cons_pos _ _ _ hpa] at h
      have har : a = r := by injection h
      subst har
      have hp2 : ((fun b => b.hash == hs) (promote n a)) = true := by
        show ((promote n a).hash == hs) = true
        rw [promote_hash]
        exact hpa
      rw [List.map_cons, find?_block_cons_pos _ _ _ hp2]
    · have hf : (a.hash == hs) = false := by simpa using hpa
      rw [find?_block_cons_neg _ _ _ hf] at h
      have hp2 : ((fun b => b.hash == hs) (promote n a)) = false := by
        show ((promote n a).hash == hs) = false
        rw [promote_hash]
        exact hf
      rw [List.map_cons, find?_block_cons_neg _ _ _ hp2]
      exact ih h

theorem find?_insert_block_of_some {l : List BlockRecord} {rec r : BlockRecord} {hs : String}
    (h : l.find? (fun b => b.hash == hs) = some r) :
    (insert_block_if_absent l rec).find? (fun b => b.hash == hs) = some r := by
  unfold insert_block_if_absent
  split
  · exact h
  · exact find?_append_of_some h _

theorem hard_stays_event (st : SyncState) (e : StacksEvent) (hs : String) (r : BlockRecord)
    (hfind : lookup_block st.db hs = some r) (hr : r.state = "hard") :
    ∃ r2, lookup_block (handle_event st e).db hs = some r2 ∧ r2.state = "hard" := by
  cases e with
  | Microblock data =>
    refine ⟨r, ?_, hr⟩
    show (insert_block_if_absent st.db.blocks _).find? (fun b => b.hash == hs) = some r
    exact find?_insert_block_of_some hfind
  | BurnBlock data =>
    refine ⟨r, ?_, hr⟩
    show (insert_block_if_absent (st.db.blocks.map (promote data.height)) _).find?
        (fun b => b.hash == hs) = some r
    have h1 := find?_hash_map_promote data.height hs st.db.blocks r hfind
    rw [promote_hard data.height r hr] at h1
    exact find?_insert_block_of_some h1

theorem hard_stays_events (evs : List StacksEvent) :
    ∀ (st : SyncState) (hs : String) (r : BlockRecord),
      lookup_block st.db hs = some r → r.state = "hard" →
      ∃ r2, lookup_block (apply_events st evs).db hs = some r2 ∧ r2.state = "hard" := by
  induction evs with
  | nil => intro st hs r hf hr; exact ⟨r, hf, hr⟩
  | cons e evs ih =>
    intro st hs r hf hr
    rcases hard_stays_event st e hs r hf hr with ⟨r2, hf2, hr2⟩
    exact ih (handle_event st e) hs r2 hf2 hr2

end NexusSync

/-- C4: a burn-block event at height `h` promotes every stored block with
height at most `h` and state `soft` to `hard`, and promotion is monotonic:
under any sequence of processed events a stored `hard` block stays `hard`. -/
theorem c4_burn_promotion :
    (∀ (st : SyncState) (data : BurnBlockData) (b : BlockRecord),
        b ∈ st.db.blocks → b.height ≤ data.height → b.state = "soft" →
        { b with state := "hard" } ∈ (NexusSync.process_burn_block st data).db.blocks) ∧
    (∀ (st : SyncState) (evs : List StacksEvent) (hs : String) (r : BlockRecord),
        NexusSync.lookup_block st.db hs = some r → r.state = "hard" →
        ∃ r2, NexusSync.lookup_block (NexusSync.apply_events st evs).db hs = some r2 ∧
          r2.state = "hard") := by
  constructor
  · intro st data b hb hle hsoft
    have hpr : NexusSync.promote data.height b = { b with state := "hard" } := by
      unfold NexusSync.promote
      rw [if_pos ⟨hle, hsoft⟩]
    show { b with state := "hard" } ∈ NexusSync.insert_block_if_absent
        (st.db.blocks.map (NexusSync.promote data.height)) _
    exact NexusSync.mem_insert_block _ _ _ (hpr ▸ List.mem_map_of_mem _ hb)
  · intro st evs hs r hf hr
    exact NexusSync.hard_stays_events evs st hs r hf hr

/-- C4 witness: a soft block at height 1 is promoted by a burn block at
height 5, and a hard block stays hard across an event sequence. -/
theorem c4_witness :
    ((⟨"h1", 1, "microblock", "soft", 0⟩ : BlockRecord) ∈
        (⟨⟨[⟨"h1", 1, "microblock", "soft", 0⟩], []⟩, NexusState.new,
          ⟨none, none⟩⟩ : SyncState).db.blocks ∧
      ({ (⟨"h1", 1, "microblock", "soft", 0⟩ : BlockRecord) with state := "hard" } ∈
        (NexusSync.process_burn_block
          ⟨⟨[⟨"h1", 1, "microblock", "soft", 0⟩], []⟩, NexusState.new, ⟨none, none⟩⟩
          ⟨"b1", 5, 10⟩).db.blocks)) ∧
    (NexusSync.lookup_block
        (⟨⟨[⟨"h2", 1, "burn_block", "hard", 0⟩], []⟩, NexusState.new,
          ⟨none, none⟩⟩ : SyncState).db "h2" = some ⟨"h2", 1, "burn_block", "hard", 0⟩ ∧
      ∃ r2, NexusSync.lookup_block
          (NexusSync.apply_events
            ⟨⟨[⟨"h2", 1, "burn_block", "hard", 0⟩], []⟩, NexusState.new, ⟨none, none⟩⟩
            [StacksEvent.BurnBlock ⟨"b2", 3, 5⟩]).db "h2" = some r2 ∧ r2.state = "hard") :=
  ⟨⟨by decide,
    c4_burn_promotion.1 _ ⟨"b1", 5, 10⟩ ⟨"h1", 1, "microblock", "soft", 0⟩
      (by decide) (by decide) rfl⟩,
   ⟨by decide,
    c4_burn_promotion.2 _ [StacksEvent.BurnBlock ⟨"b2", 3, 5⟩] "h2"
      ⟨"h2", 1, "burn_block", "hard", 0⟩ (by decide) rfl⟩⟩

namespace NexusSync

/-- The `tx_id`-presence check used by the transaction insert. -/
def has_tx (txs : List TransactionRecord) (id : String) : Bool :=
  txs.any (fun x => x.tx_id == id)

theorem any_hash_insert (l : List BlockRecord) (r : BlockRecord) :
    (insert_block_if_absent l r).any (fun b => b.hash == r.hash) = true := by
  unfold insert_block_if_absent
  split
  · assumption
  · rw [List.any_eq_true]
    exact ⟨r, List.mem_append_right _ (List.mem_singleton_self r), beq_self_eq_true _⟩

theorem insert_block_twice (l : List BlockRecord) (r : BlockRecord) :
    insert_block_if_absent (insert_block_if_absent l r) r = insert_block_if_absent l r := by
  have hany := any_hash_insert l r
  generalize hx : insert_block_if_absent l r = L at hany ⊢
  unfold insert_block_if_absent
  rw [if_pos hany]

theorem has_tx_insert_mono (txs : List TransactionRecord) (t : TransactionRecord) (id : String)
    (h : has_tx txs id = true) : has_tx (insert_tx_if_absent txs t) id = true := by
  unfold insert_tx_if_absent
  split
  · exact h
  · unfold has_tx at h ⊢
    rw [List.any_append, h]
    rfl

theorem has_tx_insert_self (txs : List TransactionRecord) (t : TransactionRecord) :
    has_tx (insert_tx_if_absent txs t) t.tx_id = true := by
  unfold insert_tx_if_absent
  split
  · assumption
  · unfold has_tx
    rw [List.any_eq_true]
    exact ⟨t, List.mem_append_right _ (List.mem_singleton_self t), beq_self_eq_true _⟩

theorem has_tx_fold_mono (data : MicroblockData) (ds : List TransactionData) :
    ∀ (acc : List TransactionRecord) (id : String), has_tx acc id = true →
      has_tx (ds.foldl (fun acc t => insert_tx_if_absent acc (micro_tx_record data t)) acc) id
        = true := by
  induction ds with
  | nil => intro acc id h; exact h
  | cons d ds ih =>
    intro acc id h
    exact ih _ id (has_tx_insert_mono acc (micro_tx_record data d) id h)

theorem has_tx_fold_present (data : MicroblockData) (ds : List TransactionData) :
    ∀ (acc : List TransactionRecord) (t : TransactionData), t ∈ ds →
      has_tx (ds.foldl (fun acc t => insert_tx_if_absent acc (micro_tx_record data t)) acc)
        t.tx_id = true := by
  induction ds with
  | nil => intro acc t ht; simp at ht
  | cons d ds ih =>
    intro acc t ht
    rcases List.mem_cons.mp ht with rfl | ht2
    · exact has_tx_fold_mono data ds _ t.tx_id
        (has_tx_insert_self acc (micro_tx_record data t))
    · exact ih _ t ht2

theorem fold_insert_noop (data : MicroblockData) (ds : List TransactionData) :
    ∀ (acc : List TransactionRecord), (∀ t ∈ ds, has_tx acc t.tx_id = true) →
      ds.foldl (fun acc t => insert_tx_if_absent acc (micro_tx_record data t)) acc = acc := by
  induction ds with
  | nil => intro acc _; rfl
  | cons d ds ih =>
    intro acc hall
    have hd : insert_tx_if_absent acc (micro_tx_record data d) = acc := by
      unfold insert_tx_if_absent
      rw [if_pos (show (acc.any fun x => x.tx_id == (micro_tx_record data d).tx_id) = true
        from hall d (List.mem_cons_self d ds))]
    show ds.foldl _ (insert_tx_if_absent acc (micro_tx_record data d)) = acc
    rw [hd]
    exact ih acc (fun t ht => hall t (List.mem_cons_of_mem d ht))

theorem burn_blocks_idem (B : List BlockRecord) (n : Nat) (rec : BlockRecord)
    (hrec : rec.state = "hard") :
    insert_block_if_absent ((insert_block_if_absent (B.map (promote n)) rec).map (promote n)) rec
      = insert_block_if_absent (B.map (promote n)) rec := by
  have hmapmap : (B.map (promote n)).map (promote n) = B.map (promote n) := by
    rw [List.map_map]
    exact List.map_congr_left (fun a _ => promote_idem n a)
  have hI : (insert_block_if_absent (B.map (promote n)) rec).map (promote n)
      = insert_block_if_absent (B.map (promote n)) rec := by
    unfold insert_block_if_absent
    split
    · exact hmapmap
    · rw [List.map_append, hmapmap]
      show _ ++ [promote n rec] = _ ++ [rec]
      rw [promote_hard n rec hrec]
  rw [hI]
  exact insert_block_twice _ rec

end NexusSync

/-- C8 counterexample: re-processing the very same microblock (one
transaction `t1`) does not leave the system state unchanged — the Merkle
leaf log grows again. -/
theorem c8_counterexample :
    NexusSync.process_microblock
        (NexusSync.process_microblock
          ⟨⟨[], []⟩, NexusState.new, ⟨none, none⟩⟩
          ⟨"h1", 1, "", [⟨"t1", "alice", some "p"⟩], 0⟩)
        ⟨"h1", 1, "", [⟨"t1", "alice", some "p"⟩], 0⟩
      ≠ NexusSync.process_microblock
          ⟨⟨[], []⟩, NexusState.new, ⟨none, none⟩⟩
          ⟨"h1", 1, "", [⟨"t1", "alice", some "p"⟩], 0⟩ := by
  intro heq
  exact absurd (congrArg (fun s : SyncState => s.state.leaves) heq) (by decide)

/-- C8 amended: re-processing the same burn block is a no-op on the whole
state; re-processing the same microblock leaves the block and transaction
stores unchanged (inserts are idempotent on hash / tx id), but appends the
event's transaction ids to the Merkle leaf log a second time. -/
theorem c8_amended_idempotence :
    (∀ (st : SyncState) (mb : MicroblockData),
        (NexusSync.process_microblock (NexusSync.process_microblock st mb) mb).db
          = (NexusSync.process_microblock st mb).db ∧
        (NexusSync.process_microblock (NexusSync.process_microblock st mb) mb).state.leaves
          = (NexusSync.process_microblock st mb).state.leaves
              ++ mb.txs.map (fun t => t.tx_id)) ∧
    (∀ (st : SyncState) (bb : BurnBlockData),
        NexusSync.process_burn_block (NexusSync.process_burn_block st bb) bb
          = NexusSync.process_burn_block st bb) := by
  constructor
  · intro st mb
    constructor
    · show SyncDb.mk
          (NexusSync.insert_block_if_absent
            (NexusSync.insert_block_if_absent st.db.blocks _) _)
          (mb.txs.foldl _ (mb.txs.foldl _ st.db.txs))
        = SyncDb.mk (NexusSync.insert_block_if_absent st.db.blocks _)
            (mb.txs.foldl _ st.db.txs)
      rw [NexusSync.insert_block_twice,
          NexusSync.fold_insert_noop mb mb.txs _
            (fun t ht => NexusSync.has_tx_fold_present mb mb.txs st.db.txs t ht)]
    · rfl
  · intro st bb
    show SyncState.mk
        ⟨NexusSync.insert_block_if_absent
            ((NexusSync.insert_block_if_absent
                (st.db.blocks.map (NexusSync.promote bb.height)) _).map
              (NexusSync.promote bb.height)) _,
          st.db.txs⟩
        st.state ⟨some st.state.get_state_root, st.redis.vaults_cache⟩
      = SyncState.mk
          ⟨NexusSync.insert_block_if_absent
              (st.db.blocks.map (NexusSync.promote bb.height)) _,
            st.db.txs⟩
          st.state ⟨some st.state.get_state_root, st.redis.vaults_cache⟩
    rw [NexusSync.burn_blocks_idem st.db.blocks bb.height _ rfl]

/-! ## Drift / circuit-breaker monitor (`src/safety/mod.rs`)

The two heights (external burn height, max processed height) are fetched over
RPC / SQL in the source; the model takes them as arguments.  The Redis keys
`nexus:safety_mode` and `nexus:drift` and the `nexus:events` channel become an
explicit record. -/

/-- The Redis state the safety monitor reads and writes: `GET` of an absent
key is modelled by `none` (the source's `unwrap_or(false)` handles it). -/
structure SafetyRedis where
  safety_mode : Option Bool
  drift : Option Nat
  published : List String
deriving DecidableEq

/-- `NexusSafety`: only `max_drift` matters to the health check. -/
structure NexusSafety where
  max_drift : Nat
deriving DecidableEq

namespace NexusSafety

/-- `NexusSafety::new`: the default maximum drift is 2 blocks. -/
def new : NexusSafety := { max_drift := 2 }

/-- `NexusSafety::calculate_drift`: `u64::saturating_sub`. -/
def calculate_drift (current processed : Nat) : Nat := current - processed

/-- `NexusSafety::trigger_safety_mode`: atomically set the flag and the drift
value and publish the trigger event. -/
def trigger_safety_mode (r : SafetyRedis) (delta : Nat) : SafetyRedis :=
  { safety_mode := some true, drift := some delta,
    published := r.published ++ ["safety_mode_triggered"] }

/-- `NexusSafety::clear_safety_mode_if_needed`: if the flag reads true,
atomically delete both keys and publish the clear event. -/
def clear_safety_mode_if_needed (r : SafetyRedis) (_delta : Nat) : SafetyRedis :=
  if r.safety_mode.getD false then
    { safety_mode := none, drift := none,
      published := r.published ++ ["safety_mode_cleared"] }
  else r

/-- `NexusSafety::check_health` with the two fetched heights as inputs. -/
def check_health (s : NexusSafety) (r : SafetyRedis)
    (current_burn_height processed_height : Nat) : SafetyRedis :=
  let delta := calculate_drift current_burn_height processed_height
  if delta > s.max_drift then trigger_safety_mode r delta
  else clear_safety_mode_if_needed r delta

/-- `NexusSafety::get_direct_exit_status`, reading the safety flag from
Redis. -/
def get_direct_exit_status (r : SafetyRedis) (user_address : String) : String :=
  if r.safety_mode.getD false then
    "User " ++ user_address ++ ": Eligible for Direct Withdrawal (Safety Mode Active)"
  else
    "User " ++ user_address ++ ": System healthy, use standard exit paths"

end NexusSafety

/-- C3: the drift is the integer `max 0 (external − processed)` (with the
three quoted sample values), and `check_health` with the default threshold 2
triggers safety mode recording exactly that drift when it exceeds 2, and
otherwise clears safety mode when it is active and leaves the state alone
when it is not. -/
theorem c3_drift_check (current processed : Nat) (r : SafetyRedis) :
    ((NexusSafety.calculate_drift current processed : Int)
        = max 0 ((current : Int) - (processed : Int))) ∧
    NexusSafety.calculate_drift 100 98 = 2 ∧
    NexusSafety.calculate_drift 100 102 = 0 ∧
    NexusSafety.calculate_drift 100 100 = 0 ∧
    (NexusSafety.calculate_drift current processed > 2 →
      (NexusSafety.check_health NexusSafety.new r current processed).safety_mode = some true ∧
      (NexusSafety.check_health NexusSafety.new r current processed).drift
        = some (NexusSafety.calculate_drift current processed)) ∧
    (NexusSafety.calculate_drift current processed ≤ 2 →
      r.safety_mode.getD false = true →
      (NexusSafety.check_health NexusSafety.new r current processed).safety_mode = none ∧
      (NexusSafety.check_health NexusSafety.new r current processed).drift = none) ∧
    (NexusSafety.calculate_drift current processed ≤ 2 →
      r.safety_mode.getD false = false →
      NexusSafety.check_health NexusSafety.new r current processed = r) := by
  refine ⟨?_, rfl, rfl, rfl, ?_, ?_, ?_⟩
  · unfold NexusSafety.calculate_drift
    omega
  · intro hgt
    unfold NexusSafety.check_health
    rw [if_pos (show NexusSafety.calculate_drift current processed > NexusSafety.new.max_drift
      from hgt)]
    exact ⟨rfl, rfl⟩
  · intro hle hon
    unfold NexusSafety.check_health
    rw [if_neg (show ¬ NexusSafety.calculate_drift current processed > NexusSafety.new.max_drift
      by show ¬ _ > 2; omega)]
    unfold NexusSafety.clear_safety_mode_if_needed
    rw [hon, if_pos rfl]
    exact ⟨rfl, rfl⟩
  · intro hle hoff
    unfold NexusSafety.check_health
    rw [if_neg (show ¬ NexusSafety.calculate_drift current processed > NexusSafety.new.max_drift
      by show ¬ _ > 2; omega)]
    unfold NexusSafety.clear_safety_mode_if_needed
    rw [hoff]
    rfl

/-- C3 witness: heights (105, 100) trigger with drift 5; heights (100, 100)
with safety mode active clear it. -/
theorem c3_witness :
    (NexusSafety.calculate_drift 105 100 > 2 ∧
      (NexusSafety.check_health NexusSafety.new ⟨none, none, []⟩ 105 100).safety_mode
        = some true ∧
      (NexusSafety.check_health NexusSafety.new ⟨none, none, []⟩ 105 100).drift = some 5) ∧
    (NexusSafety.calculate_drift 100 100 ≤ 2 ∧
      (⟨some true, some 5, []⟩ : SafetyRedis).safety_mode.getD false = true ∧
      (NexusSafety.check_health NexusSafety.new ⟨some true, some 5, []⟩ 100 100).safety_mode
        = none ∧
      (NexusSafety.check_health NexusSafety.new ⟨some true, some 5, []⟩ 100 100).drift
        = none) :=
  ⟨⟨by decide,
    ((c3_drift_check 105 100 ⟨none, none, []⟩).2.2.2.2.1 (by decide)).1,
    ((c3_drift_check 105 100 ⟨none, none, []⟩).2.2.2.2.1 (by decide)).2⟩,
   ⟨by decide, rfl,
    ((c3_drift_check 100 100 ⟨some true, some 5, []⟩).2.2.2.2.2.1 (by decide) rfl).1,
    ((c3_drift_check 100 100 ⟨some true, some 5, []⟩).2.2.2.2.2.1 (by decide) rfl).2⟩⟩

/-- C6 counterexample: under the same active safety flag, two different
addresses receive different messages (the address is echoed into the text),
so the returned message is not literally identical across users. -/
theorem c6_counterexample :
    NexusSafety.get_direct_exit_status ⟨some true, some 5, []⟩ "alice"
      ≠ NexusSafety.get_direct_exit_status ⟨some true, some 5, []⟩ "bob" := by
  decide

/-- C6 amended: the result depends on nothing but the safety flag and the
echoed address — under one flag state, every pair of users receives the same
message tail after `User ` and their own address, with no other per-user
state involved. -/
theorem c6_flag_determines_status (r : SafetyRedis) (u v : String) :
    ∃ tail : String,
      NexusSafety.get_direct_exit_status r u = "User " ++ u ++ tail ∧
      NexusSafety.get_direct_exit_status r v = "User " ++ v ++ tail := by
  refine ⟨if r.safety_mode.getD false
    then ": Eligible for Direct Withdrawal (Safety Mode Active)"
    else ": System healthy, use standard exit paths", ?_, ?_⟩ <;>
    · unfold NexusSafety.get_direct_exit_status
      split <;> rfl

/-! ## FSOC front-running sequencer (`src/executor/mod.rs`)

Timestamps are `Int` milliseconds (`chrono::Duration::seconds(60)` is 60000,
`num_milliseconds() < 500` stays in milliseconds).  The SQL windowed counts
become filters over the `stacks_transactions` list; the single-slot
`latest_event_time_cache` is threaded explicitly as an `Option Int`. -/

/-- `ExecutionRequest` from `src/executor/mod.rs`. -/
structure ExecutionRequest where
  tx_id : String
  payload : String
  timestamp : Int
  sender : String
deriving DecidableEq

/-- Substring test on character lists, for `str::contains`. -/
def listStarts : List Char → List Char → Bool
  | _, [] => true
  | [], _ :: _ => false
  | a :: as2, b :: bs => (a == b) && listStarts as2 bs

/-- `str::contains(pat)`: some position of `l` starts with `pat`. -/
def listContains (pat : List Char) : List Char → Bool
  | [] => listStarts [] pat
  | a :: t => listStarts (a :: t) pat || listContains pat t

namespace NexusExecutor

/-- `SELECT COUNT(*) ... WHERE tx_id != $1 AND sender = $2 AND created_at > $3`
with `$3 = request.timestamp - 60s`. -/
def sender_window_count (txs : List TransactionRecord) (req : ExecutionRequest) : Nat :=
  (txs.filter (fun t =>
    (!(t.tx_id == req.tx_id)) && (t.sender == req.sender) &&
      decide (t.created_at > req.timestamp - 60000))).length

/-- `SELECT COUNT(*) ... WHERE tx_id != $1 AND payload = $2 AND created_at > $3`
with `$3 = request.timestamp - 5s`. -/
def payload_window_count (txs : List TransactionRecord) (req : ExecutionRequest) : Nat :=
  (txs.filter (fun t =>
    (!(t.tx_id == req.tx_id)) && (t.payload == some req.payload) &&
      decide (t.created_at > req.timestamp - 5000))).length

/-- `SELECT created_at FROM stacks_blocks ORDER BY created_at DESC LIMIT 1`. -/
def latest_event_time (blocks : List BlockRecord) : Option Int :=
  (blocks.map (fun b => b.created_at)).max?

/-- `NexusExecutor::get_cached_or_fetch_latest_event_time`: return the cached
time if present, otherwise query the newest block time and fill the cache
only when a row exists.  Result: (returned time, cache afterwards). -/
def get_cached_or_fetch_latest_event_time (cache : Option Int) (blocks : List BlockRecord) :
    Option Int × Option Int :=
  match cache with
  | some t => (some t, some t)
  | none =>
    match latest_event_time blocks with
    | some t => (some t, some t)
    | none => (none, none)

/-- `NexusExecutor::detect_front_running`: spam guard (more than 10 other
transactions of the sender since t−60s), copy-cat guard (any identical
payload from another tx since t−5s), then the advisory liquidation check
(which only logs, but refreshes the cache).  Result: (detected, cache). -/
def detect_front_running (txs : List TransactionRecord) (blocks : List BlockRecord)
    (cache : Option Int) (req : ExecutionRequest) : Bool × Option Int :=
  if sender_window_count txs req > 10 then (true, cache)
  else if payload_window_count txs req > 0 then (true, cache)
  else if listContains ("liquidate".data) (req.payload.data) then
    (false, (get_cached_or_fetch_latest_event_time cache blocks).2)
  else (false, cache)

/-- The tail of `validate_transaction` after the first-seen-on-chain check. -/
def validate_after_timestamp (txs : List TransactionRecord) (blocks : List BlockRecord)
    (cache : Option Int) (req : ExecutionRequest) : Bool × Option Int :=
  let d := detect_front_running txs blocks cache req
  if d.1 then (false, d.2) else (true, d.2)

/-- `NexusExecutor::validate_transaction`: reject when the request timestamp
is before the latest known on-chain event time (when one is known), then run
the front-running checks.  Result: (accepted, cache afterwards). -/
def validate_transaction (txs : List TransactionRecord) (blocks : List BlockRecord)
    (cache : Option Int) (req : ExecutionRequest) : Bool × Option Int :=
  let r := get_cached_or_fetch_latest_event_time cache blocks
  match r.1 with
  | some t =>
    if req.timestamp < t then (false, r.2)
    else validate_after_timestamp txs blocks r.2 req
  | none => validate_after_timestamp txs blocks r.2 req

end NexusExecutor

/-- C5: a request whose sender has more than 10 other recorded transactions
in the 60-second window is rejected (11 in particular), and a request with
exactly 10 such transactions is accepted provided its timestamp is not
earlier than the latest known on-chain event time and no identical payload
from another transaction lies in the 5-second window. -/
theorem c5_sender_rate_limit (txs : List TransactionRecord) (blocks : List BlockRecord)
    (cache : Option Int) (req : ExecutionRequest) :
    (NexusExecutor.sender_window_count txs req > 10 →
      (NexusExecutor.validate_transaction txs blocks cache req).1 = false) ∧
    (NexusExecutor.sender_window_count txs req = 11 →
      (NexusExecutor.validate_transaction txs blocks cache req).1 = false) ∧
    (NexusExecutor.sender_window_count txs req = 10 →
      (∀ t, (NexusExecutor.get_cached_or_fetch_latest_event_time cache blocks).1 = some t →
        ¬ req.timestamp < t) →
      NexusExecutor.payload_window_count txs req = 0 →
      (NexusExecutor.validate_transaction txs blocks cache req).1 = true) := by
  have hreject : NexusExecutor.sender_window_count txs req > 10 →
      (NexusExecutor.validate_transaction txs blocks cache req).1 = false := by
    intro hgt
    have hafter : ∀ c, (NexusExecutor.validate_after_timestamp txs blocks c req).1 = false := by
      intro c
      unfold NexusExecutor.validate_after_timestamp NexusExecutor.detect_front_running
      rw [if_pos hgt]
      rfl
    simp only [NexusExecutor.validate_transaction]
    cases hr : (NexusExecutor.get_cached_or_fetch_latest_event_time cache blocks).1 with
    | none =>
      simp only [hr]
      exact hafter _
    | some t =>
      simp only [hr]
      by_cases hts2 : req.timestamp < t
      · rw [if_pos hts2]
      · rw [if_neg hts2]
        exact hafter _
  refine ⟨hreject, fun h11 => hreject (by rw [h11]; decide), ?_⟩
  intro h10 hts hpay
  have hafter : ∀ c, (NexusExecutor.validate_after_timestamp txs blocks c req).1 = true := by
    intro c
    unfold NexusExecutor.validate_after_timestamp NexusExecutor.detect_front_running
    rw [if_neg (show ¬ NexusExecutor.sender_window_count txs req > 10 by omega),
        if_neg (show ¬ NexusExecutor.payload_window_count txs req > 0 by omega)]
    by_cases hliq : listContains ("liquidate".data) (req.payload.data) = true
    · rw [if_pos hliq]
      rfl
    · rw [if_neg hliq]
      rfl
  simp only [NexusExecutor.validate_transaction]
  cases hr : (NexusExecutor.get_cached_or_fetch_latest_event_time cache blocks).1 with
  | none =>
    simp only [hr]
    exact hafter _
  | some t =>
    simp only [hr]
    rw [if_neg (hts t hr)]
    exact hafter _

/-- C5 witness: with 10 prior transactions of the same sender in the window
the request is accepted; with 11 it is rejected. -/
theorem c5_witness :
    (NexusExecutor.sender_window_count
        [⟨"p1", "b", "s", none, 0⟩, ⟨"p2", "b", "s", none, 0⟩, ⟨"p3", "b", "s", none, 0⟩,
         ⟨"p4", "b", "s", none, 0⟩, ⟨"p5", "b", "s", none, 0⟩, ⟨"p6", "b", "s", none, 0⟩,
         ⟨"p7", "b", "s", none, 0⟩, ⟨"p8", "b", "s", none, 0⟩, ⟨"p9", "b", "s", none, 0⟩,
         ⟨"p10", "b", "s", none, 0⟩] ⟨"r", "pay", 0, "s"⟩ = 10 ∧
      NexusExecutor.payload_window_count
        [⟨"p1", "b", "s", none, 0⟩, ⟨"p2", "b", "s", none, 0⟩, ⟨"p3", "b", "s", none, 0⟩,
         ⟨"p4", "b", "s", none, 0⟩, ⟨"p5", "b", "s", none, 0⟩, ⟨"p6", "b", "s", none, 0⟩,
         ⟨"p7", "b", "s", none, 0⟩, ⟨"p8", "b", "s", none, 0⟩, ⟨"p9", "b", "s", none, 0⟩,
         ⟨"p10", "b", "s", none, 0⟩] ⟨"r", "pay", 0, "s"⟩ = 0 ∧
      (NexusExecutor.validate_transaction
        [⟨"p1", "b", "s", none, 0⟩, ⟨"p2", "b", "s", none, 0⟩, ⟨"p3", "b", "s", none, 0⟩,
         ⟨"p4", "b", "s", none, 0⟩, ⟨"p5", "b", "s", none, 0⟩, ⟨"p6", "b", "s", none, 0⟩,
         ⟨"p7", "b", "s", none, 0⟩, ⟨"p8", "b", "s", none, 0⟩, ⟨"p9", "b", "s", none, 0⟩,
         ⟨"p10", "b", "s", none, 0⟩] [] none ⟨"r", "pay", 0, "s"⟩).1 = true) ∧
    (NexusExecutor.sender_window_count
        [⟨"p1", "b", "s", none, 0⟩, ⟨"p2", "b", "s", none, 0⟩, ⟨"p3", "b", "s", none, 0⟩,
         ⟨"p4", "b", "s", none, 0⟩, ⟨"p5", "b", "s", none, 0⟩, ⟨"p6", "b", "s", none, 0⟩,
         ⟨"p7", "b", "s", none, 0⟩, ⟨"p8", "b", "s", none, 0⟩, ⟨"p9", "b", "s", none, 0⟩,
         ⟨"p10", "b", "s", none, 0⟩, ⟨"p11", "b", "s", none, 0⟩] ⟨"r", "pay", 0, "s"⟩ = 11 ∧
      (NexusExecutor.validate_transaction
        [⟨"p1", "b", "s", none, 0⟩, ⟨"p2", "b", "s", none, 0⟩, ⟨"p3", "b", "s", none, 0⟩,
         ⟨"p4", "b", "s", none, 0⟩, ⟨"p5", "b", "s", none, 0⟩, ⟨"p6", "b", "s", none, 0⟩,
         ⟨"p7", "b", "s", none, 0⟩, ⟨"p8", "b", "s", none, 0⟩, ⟨"p9", "b", "s", none, 0⟩,
         ⟨"p10", "b", "s", none, 0⟩, ⟨"p11", "b", "s", none, 0⟩] [] none
        ⟨"r", "pay", 0, "s"⟩).1 = false) :=
  ⟨⟨by decide, by decide,
    (c5_sender_rate_limit _ [] none ⟨"r", "pay", 0, "s"⟩).2.2 (by decide)
      (fun t h => Option.noConfusion h) (by decide)⟩,
   ⟨by decide,
    (c5_sender_rate_limit _ [] none ⟨"r", "pay", 0, "s"⟩).2.1 (by decide)⟩⟩

/-- C10: with an empty cache and no block record in storage, the
first-seen-on-chain timestamp comparison is skipped entirely: the request is
accepted exactly when the front-running checks pass, whatever its
timestamp. -/
theorem c10_no_event_time_skips_check (txs : List TransactionRecord) (req : ExecutionRequest) :
    (NexusExecutor.validate_transaction txs [] none req).1
      = !(NexusExecutor.detect_front_running txs [] none req).1 ∧
    ((NexusExecutor.validate_transaction txs [] none req).1 = true ↔
      (NexusExecutor.detect_front_running txs [] none req).1 = false) := by
  have hmain : (NexusExecutor.validate_transaction txs [] none req).1
      = !(NexusExecutor.detect_front_running txs [] none req).1 := by
    show (NexusExecutor.validate_after_timestamp txs [] none req).1 = _
    simp only [NexusExecutor.validate_after_timestamp]
    cases hd : (NexusExecutor.detect_front_running txs [] none req).1 with
    | true => rfl
    | false => rfl
  refine ⟨hmain, ?_⟩
  rw [hmain]
  cases (NexusExecutor.detect_front_running txs [] none req).1 <;> simp

/-! ## Sanity checks mirroring the unit tests of `src/state/mod.rs` -/

theorem calculate_root_empty_test :
    NexusState.calculate_root [] = NexusState.zero_root := rfl

theorem calculate_root_single_test :
    NexusState.calculate_root ["leaf1"] = "0x" ++ hexEncode (sha256 (utf8Bytes "leaf1")) := rfl

set_option maxRecDepth 40000 in
theorem sha256_test_vector :
    hexEncode (sha256 (utf8Bytes "abc"))
      = "ba7816bf8f01cfea414140de5dae2223b00361a396177a9cb410ff61f20015ad" := by decide

set_option maxRecDepth 100000 in
theorem merkle_roundtrip_test :
    (match (NexusState.new.set_initial_leaves ["a", "b", "c"]).generate_merkle_proof "b" with
      | some p => verify_merkle_proof p
      | none => false) = true := by decide
